import Mathlib

/-!
Verification of the codetographer graph editor against its design document.

The development shallowly embeds the data model of webview/src/types/cgraph.ts,
the layout and edge-routing logic of webview/src/components/GraphCanvas.tsx,
the render-session batching of webview/src/hooks/useVSCodeApi.ts, and the
document-authority operations of extension/src/cgraphEditorProvider.ts.
Coordinates are modelled as rationals (JavaScript numbers in the observed
inputs are exact decimals), string handles are kept verbatim, and the
document is modelled structurally (a parsed graph value) since every edit the
authority commits is a whole-document replace of the serialized graph.
-/

namespace Codetographer

/-- Coordinate pair, as in the position fields of cgraph.ts. -/
structure Position where
  x : Rat
  y : Rat
  deriving Repr, DecidableEq

/-- Width and height pair, as in the size field of CGraphGroup. -/
structure Size where
  width : Rat
  height : Rat
  deriving Repr, DecidableEq

/-- Source location carried by a node (cgraph.ts CGraphLocation). -/
structure CGraphLocation where
  file : String
  startLine : Int
  endLine : Option Int
  deriving Repr, DecidableEq

/-- Node kind (cgraph.ts CGraphNode.type). The class kind is written cls
because class is a reserved word here. -/
inductive NodeType where
  | function
  | method
  | cls
  | module
  | file
  deriving Repr, DecidableEq

/-- Edge kind (cgraph.ts CGraphEdge.type). The extends kind is written
extendsRel because extends is a reserved word here. -/
inductive EdgeType where
  | calls
  | imports
  | extendsRel
  | implements
  | uses
  deriving Repr, DecidableEq

/-- Edge visual weight (cgraph.ts CGraphEdge.importance). -/
inductive Importance where
  | primary
  | secondary
  | tertiary
  deriving Repr, DecidableEq

/-- Graph node (cgraph.ts CGraphNode); position is the manual override. -/
structure CGraphNode where
  id : String
  label : String
  type : NodeType
  description : Option String
  location : CGraphLocation
  group : Option String
  position : Option Position
  deriving Repr, DecidableEq

/-- Graph edge (cgraph.ts CGraphEdge). -/
structure CGraphEdge where
  id : String
  source : String
  target : String
  type : EdgeType
  label : Option String
  importance : Option Importance
  color : Option String
  deriving Repr, DecidableEq

/-- Node group (cgraph.ts CGraphGroup); position and size are the manual
overrides. -/
structure CGraphGroup where
  id : String
  label : String
  description : Option String
  color : Option String
  position : Option Position
  size : Option Size
  deriving Repr, DecidableEq

/-- Layout direction (cgraph.ts CGraphLayout.direction). -/
inductive Direction where
  | TB
  | LR
  | BT
  | RL
  deriving Repr, DecidableEq

/-- Whole graph document (cgraph.ts CGraph). Metadata, version and legend do
not influence any verified operation and are carried as opaque-free plain
fields only where an operation must preserve them; here we keep the fields
the operations read or rewrite. -/
structure CGraph where
  version : String
  nodes : List CGraphNode
  edges : List CGraphEdge
  groups : Option (List CGraphGroup)
  direction : Option Direction
  deriving Repr, DecidableEq

/-! ## Node dimensions (GraphCanvas.tsx getNodeDimensions) -/

/-- Embedding of getNodeDimensions from GraphCanvas.tsx: width from label
length with the description summary considered, clamped into 220..320;
height 90 with a description and 60 without. -/
def getNodeDimensions (label : String) (description : Option String) :
    Nat × Nat :=
  let labelWidth := label.length * 8 + 80
  let descWidth := match description with
    | some d => min (d.length * 6) 280
    | none => 0
  let baseWidth := max 220 (min 320 (max labelWidth descWidth))
  let baseHeight := if description.isSome then 90 else 60
  (baseWidth, baseHeight)

/-- Clamp of v into the interval lo..hi, as written in the design document. -/
def clamp (lo hi v : Nat) : Nat := max lo (min hi v)

/-- Dimension rule exactly as the design document words it: width is
clamp(220, 320, max(len(label)*8+80, min(len(description)*6, 280))) with the
description term 0 when absent, and height is 90 when a description is
present and 60 otherwise. -/
def dimensionsSpec (label : String) (description : Option String) :
    Nat × Nat :=
  let labelTerm := label.length * 8 + 80
  let descTerm := match description with
    | some d => min (d.length * 6) 280
    | none => 0
  (clamp 220 320 (max labelTerm descTerm),
    match description with
    | some _ => 90
    | none => 60)

/-! ## Edge router (GraphCanvas.tsx, edge handle selection) -/

/-- Embedding of the vertical-versus-horizontal test of GraphCanvas.tsx:
a layout is vertical exactly when its direction is TB or BT. -/
def isVerticalDirection (d : Direction) : Bool :=
  d = Direction.TB || d = Direction.BT

/-- Embedding of the edge handle selection of GraphCanvas.tsx for an edge
whose endpoints were both placed. Inputs are the coordinate deltas
dx = target.x - source.x and dy = target.y - source.y; the result is the
source handle and target handle string pair exactly as the code assigns
them. -/
def routeHandles (isVertical : Bool) (dx dy : Rat) : String × String :=
  if isVertical then
    if dy > 30 then ("bottom-source", "top")
    else if dy < -30 then ("top-source", "bottom")
    else if dx > 0 then ("right-source", "left")
    else ("left-source", "right")
  else
    if dx > 30 then ("right-source", "left")
    else if dx < -30 then ("left-source", "right")
    else if dy > 0 then ("bottom-source", "top")
    else ("top-source", "bottom")

/-- Embedding of the back-edge test of GraphCanvas.tsx for vertical layouts:
the target sits more than 30 units above the source, written there as
targetPos.y < sourcePos.y - 30, which is dy < -30. -/
def isBackEdgeVertical (dy : Rat) : Bool := dy < -30

/-- Route of an edge from the stored endpoint positions, as the code derives
dx and dy from the placed positions of source and target. -/
def routeFromPositions (isVertical : Bool) (sourcePos targetPos : Position) :
    String × String :=
  routeHandles isVertical (targetPos.x - sourcePos.x) (targetPos.y - sourcePos.y)

/-! ## Document authority (cgraphEditorProvider.ts) -/

/-- One node or group position change of an updatePositions batch. -/
structure PosChange where
  id : String
  position : Position
  deriving Repr, DecidableEq

/-- One group size change of an updatePositions batch. -/
structure SizeChange where
  id : String
  size : Size
  deriving Repr, DecidableEq

/-- Payload of the updatePositions message (cgraphEditorProvider.ts). Each
field is absent when the sender accumulated no change of that kind. -/
structure PositionChanges where
  nodePositions : Option (List PosChange)
  groupPositions : Option (List PosChange)
  groupSizes : Option (List SizeChange)
  deriving Repr, DecidableEq

/-- Embedding of one node position change: find locates the first node with
the given id and its position field is overwritten; when no node matches the
change is dropped. -/
def setNodePosition : List CGraphNode → PosChange → List CGraphNode
  | [], _ => []
  | n :: rest, ch =>
    if n.id == ch.id then { n with position := some ch.position } :: rest
    else n :: setNodePosition rest ch

/-- Embedding of one group position change, analogous to setNodePosition. -/
def setGroupPosition : List CGraphGroup → PosChange → List CGraphGroup
  | [], _ => []
  | g :: rest, ch =>
    if g.id == ch.id then { g with position := some ch.position } :: rest
    else g :: setGroupPosition rest ch

/-- Embedding of one group size change, analogous to setNodePosition. -/
def setGroupSize : List CGraphGroup → SizeChange → List CGraphGroup
  | [], _ => []
  | g :: rest, ch =>
    if g.id == ch.id then { g with size := some ch.size } :: rest
    else g :: setGroupSize rest ch

/-- Embedding of the document rewrite performed by applyPositionChanges in
cgraphEditorProvider.ts: node position changes are applied in batch order,
group position and then group size changes are applied only when the
document has a groups collection, and the rewritten content is what the
single whole-document replace persists. Every coordinate is stored exactly
as received. -/
def applyPositionChanges (content : CGraph) (changes : PositionChanges) :
    CGraph :=
  let nodes := match changes.nodePositions with
    | some cs => cs.foldl setNodePosition content.nodes
    | none => content.nodes
  let groupsAfterPos := match content.groups, changes.groupPositions with
    | some gs, some cs => some (cs.foldl setGroupPosition gs)
    | gsOpt, _ => gsOpt
  let groupsAfterSize := match groupsAfterPos, changes.groupSizes with
    | some gs, some cs => some (cs.foldl setGroupSize gs)
    | gsOpt, _ => gsOpt
  { content with nodes := nodes, groups := groupsAfterSize }

/-- Embedding of clearManualPositions in cgraphEditorProvider.ts: delete the
position key of every node and the position and size keys of every group,
leaving every other field alone. -/
def clearManualPositions (content : CGraph) : CGraph :=
  { content with
    nodes := content.nodes.map (fun n => { n with position := none })
    groups := content.groups.map
      (fun gs => gs.map (fun g => { g with position := none, size := none })) }

/-- Embedding of editingUris.add: the JavaScript Set adds the uri once. -/
def guardAdd (uris : List String) (uri : String) : List String :=
  if uri ∈ uris then uris else uri :: uris

/-- Embedding of editingUris.delete, run by the timer scheduled in the
finally block: the uri is removed from the set. -/
def guardDelete (uris : List String) (uri : String) : List String :=
  uris.filter (fun u => u ≠ uri)

/-- Embedding of the onDidChangeTextDocument subscription: an update push
with the current document content goes out exactly when the changed document
is ours and its uri is not marked as self-editing. -/
def changeEventPushes (editingUris : List String) (docUri uriString : String)
    (content : CGraph) : List CGraph :=
  if docUri == uriString && !(editingUris.contains docUri) then [content]
  else []

/-- Outcome record of one authority edit operation: the guard set while the
body runs, the guard set after the finally-scheduled release has run, the
resulting document, the number of committed whole-document replace edits,
and the user notices shown. -/
structure EditRun where
  during : List String
  final : List String
  doc : CGraph
  edits : Nat
  notices : List String
  deriving Repr, DecidableEq

/-- Embedding of the control flow of applyPositionChanges: the uri is added
to editingUris, the body either parses and commits one replace edit
(parseOk) or throws and is caught with an error notice, and in both cases
the finally block schedules the guard release. -/
def applyPositionChangesRun (uris : List String) (uri : String)
    (content : CGraph) (changes : PositionChanges) (parseOk : Bool) :
    EditRun :=
  let during := guardAdd uris uri
  let outcome := if parseOk
    then (applyPositionChanges content changes, 1, ([] : List String))
    else (content, 0, ["Failed to update positions"])
  { during := during
    final := guardDelete during uri
    doc := outcome.1
    edits := outcome.2.1
    notices := outcome.2.2 }

/-- Embedding of the control flow of clearManualPositions, with the same
guard, catch and finally structure as applyPositionChangesRun. -/
def clearManualPositionsRun (uris : List String) (uri : String)
    (content : CGraph) (parseOk : Bool) : EditRun :=
  let during := guardAdd uris uri
  let outcome := if parseOk
    then (clearManualPositions content, 1, ([] : List String))
    else (content, 0, ["Failed to reset layout"])
  { during := during
    final := guardDelete during uri
    doc := outcome.1
    edits := outcome.2.1
    notices := outcome.2.2 }

/-- Outcome record of revertToSavedState over raw document text. -/
structure RevertRun where
  during : List String
  final : List String
  doc : String
  edits : Nat
  notices : List String
  deriving Repr, DecidableEq

/-- Embedding of revertToSavedState in cgraphEditorProvider.ts. The map
lookup yields none when no snapshot was stored; the JavaScript truthiness
test on the looked-up string also treats an empty snapshot as absent. When
the content already equals the snapshot a notice is shown and nothing is
edited. Otherwise the guard is taken and one whole-document replace installs
the snapshot, with the catch and finally structure of the other edits. -/
def revertToSavedRun (uris : List String) (uri : String) (content : String)
    (saved : Option String) (applyOk : Bool) : RevertRun :=
  match saved with
  | none => ⟨uris, uris, content, 0, ["No saved state to revert to"]⟩
  | some s =>
    if s == "" then ⟨uris, uris, content, 0, ["No saved state to revert to"]⟩
    else if content == s then ⟨uris, uris, content, 0, ["No changes to revert"]⟩
    else
      let during := guardAdd uris uri
      let outcome := if applyOk then (s, 1, ([] : List String))
        else (content, 0, ["Failed to revert"])
      ⟨during, guardDelete during uri, outcome.1, outcome.2.1, outcome.2.2⟩

/-! ## Render session batching (useVSCodeApi.ts) -/

/-- Embedding of updateNodePosition in useVSCodeApi.ts: findIndex locates
the first buffered entry with the same id and its position is replaced,
otherwise the new entry is pushed onto the end of the buffer. -/
def updateNodeBuffer : List PosChange → String → Position → List PosChange
  | [], nodeId, p => [⟨nodeId, p⟩]
  | c :: rest, nodeId, p =>
    if c.id == nodeId then { c with position := p } :: rest
    else c :: updateNodeBuffer rest nodeId p

/-- Event of a render session run: a position change intent from a drag end,
or the expiry of the trailing debounce timer. -/
inductive SessionEvent where
  | intent (nodeId : String) (p : Position)
  | fire
  deriving Repr, DecidableEq

/-- State of the render session in useVSCodeApi.ts: the pending node
position buffer, whether a debounce timeout is scheduled, and the batches
already posted to the authority. -/
structure SessionState where
  buffer : List PosChange
  timerPending : Bool
  sent : List (List PosChange)
  deriving Repr, DecidableEq

/-- Embedding of the session step: an intent stores the value in the buffer
and re-arms the debounce timer (clearTimeout of any pending one plus a fresh
setTimeout); the timer expiry runs the debounced sendChanges, which posts
one updatePositions batch with the whole buffer when it is nonempty and
clears it. -/
def sessionStep (st : SessionState) (e : SessionEvent) : SessionState :=
  match e with
  | .intent nodeId p =>
    { st with buffer := updateNodeBuffer st.buffer nodeId p, timerPending := true }
  | .fire =>
    if st.timerPending then
      if st.buffer.isEmpty then { st with timerPending := false }
      else { buffer := [], timerPending := false, sent := st.sent ++ [st.buffer] }
    else st

/-- Run of a render session from the empty initial state. -/
def sessionRun (es : List SessionEvent) : SessionState :=
  es.foldl sessionStep ⟨[], false, []⟩

/-! ## Selection and highlight (GraphCanvas.tsx GraphCanvas component) -/

/-- Rendered node as React Flow sees it: group containers are the nodes of
type groupNode, and dimmed is the optional data.dimmed field, absent on
freshly created group nodes. -/
structure RFNode where
  id : String
  isGroup : Bool
  dimmed : Option Bool
  deriving Repr, DecidableEq

/-- Embedding of the connected-ids memo in GraphCanvas.tsx: with no
selection both sets are empty; with a selected node the node itself plus
both endpoints of every touching edge are highlighted, and the touching
edges themselves are the highlighted edges. -/
def connectedIds (selected : Option String) (edges : List CGraphEdge) :
    List String × List String :=
  match selected with
  | none => ([], [])
  | some sel =>
    edges.foldl
      (fun acc e =>
        if e.source == sel || e.target == sel then
          (acc.1 ++ [e.source, e.target], acc.2 ++ [e.id])
        else acc)
      ([sel], [])

/-- Embedding of the node dimming effect in GraphCanvas.tsx: nodes of type
groupNode are returned unchanged in both branches; with no selection every
other node gets dimmed false; with a selection every other node gets dimmed
true exactly when it is not in the connected set. -/
def applyNodeDimming (selected : Option String) (connected : List String)
    (nodes : List RFNode) : List RFNode :=
  nodes.map fun n =>
    if n.isGroup then n
    else match selected with
      | none => { n with dimmed := some false }
      | some _ => { n with dimmed := some (!(connected.contains n.id)) }

/-- Embedding of the edge dimming effect in GraphCanvas.tsx: with no
selection every edge gets style opacity 1; with a selection a highlighted
edge gets opacity 1 and every other edge gets opacity 0.15. -/
def edgeOpacity (selected : Option String) (connectedEdges : List String)
    (e : CGraphEdge) : Rat :=
  match selected with
  | none => 1
  | some _ => if connectedEdges.contains e.id then 1 else 15 / 100

/-! ## Layout compilation output (GraphCanvas.tsx layoutGraph) -/

/-- Leaf box sent to the layout solver for one node: only the id and the
computed width and height, never a stored position. -/
def elkRequestLeaves (g : CGraph) : List (String × Nat × Nat) :=
  g.nodes.map fun n =>
    (n.id, (getNodeDimensions n.label n.description).1,
      (getNodeDimensions n.label n.description).2)

/-- Embedding of the position assignment at the end of layoutGraph: each
code node takes the solver-derived absolute position collected by
extractPositions, with the fallback origin when the solver did not place the
id. The nodePositions argument is that collected map. -/
def codeNodePosition (nodePositions : List (String × Position))
    (nodeId : String) : Position :=
  match nodePositions.find? (fun q => q.1 == nodeId) with
  | some q => q.2
  | none => ⟨0, 0⟩

/-- Final positions layoutGraph assigns to the code nodes of a graph, as a
list of id and position pairs in document node order. -/
def compiledNodePositions (g : CGraph)
    (nodePositions : List (String × Position)) : List (String × Position) :=
  g.nodes.map fun n => (n.id, codeNodePosition nodePositions n.id)

/-- Stored-override erasure on nodes, used to state that the compiled
output does not depend on stored positions. -/
def eraseStoredPositions (g : CGraph) : CGraph :=
  { g with nodes := g.nodes.map (fun n => { n with position := none }) }

end Codetographer

namespace Codetographer

/-- C9: for every label and optional description the computed node box
agrees with the documented dimension rule, namely width equal to
clamp(220, 320, max(len(label)*8+80, min(len(description)*6, 280))) and
height 90 exactly when a description is present, 60 otherwise; the function
is a pure function of its two inputs, hence deterministic. -/
theorem getNodeDimensions_matches_rule (label : String)
    (description : Option String) :
    getNodeDimensions label description = dimensionsSpec label description := by
  cases description <;> rfl

/-- C2: in a vertical layout, dy greater than 30 selects the forward pair of
anchors (source bottom, target top) and the back-edge flag is off; dy less
than -30 sets the back-edge flag; when dy is within 30 of zero the side
anchors are chosen by the sign of dx (positive dx routes right-source to
left, negative dx routes left-source to right). -/
theorem edge_router_vertical_cases (dx dy : Rat) :
    (30 < dy →
      routeHandles true dx dy = ("bottom-source", "top") ∧
        isBackEdgeVertical dy = false) ∧
    (dy < -30 →
      routeHandles true dx dy = ("top-source", "bottom") ∧
        isBackEdgeVertical dy = true) ∧
    (-30 ≤ dy → dy ≤ 30 → 0 < dx →
      routeHandles true dx dy = ("right-source", "left")) ∧
    (-30 ≤ dy → dy ≤ 30 → dx < 0 →
      routeHandles true dx dy = ("left-source", "right")) := by
  refine ⟨?_, ?_, ?_, ?_⟩
  · intro h
    constructor
    · simp [routeHandles, h]
    · simp only [isBackEdgeVertical, decide_eq_false_iff_not, not_lt]
      linarith
  · intro h
    constructor
    · have h1 : ¬ (30 : Rat) < dy := by linarith
      simp [routeHandles, h1, h]
    · simp only [isBackEdgeVertical, decide_eq_true_eq]
      exact h
  · intro h1 h2 h3
    have h4 : ¬ (30 : Rat) < dy := not_lt.mpr h2
    have h5 : ¬ dy < (-30 : Rat) := not_lt.mpr h1
    simp [routeHandles, h4, h5, h3]
  · intro h1 h2 h3
    have h4 : ¬ (30 : Rat) < dy := not_lt.mpr h2
    have h5 : ¬ dy < (-30 : Rat) := not_lt.mpr h1
    have h6 : ¬ (0 : Rat) < dx := by linarith
    simp [routeHandles, h4, h5, h6]

/-- Witness for C2, the scenario of the design document: nodes A at (0, 0)
and B at (100, 50) in a vertical TB layout give dy = 50 above the threshold,
so the anchors are (bottom, top) and the edge is not a back edge. -/
theorem edge_router_vertical_cases_witness :
    routeFromPositions true ⟨0, 0⟩ ⟨100, 50⟩ = ("bottom-source", "top") ∧
      isBackEdgeVertical ((50 : Rat) - 0) = false := by
  have h := (edge_router_vertical_cases ((100 : Rat) - 0) ((50 : Rat) - 0)).1
    (by norm_num)
  exact ⟨h.1, h.2⟩

/-! ## Helper lemmas about the authority edit primitives -/

/-- Applying a node position change never changes the id sequence. -/
theorem setNodePosition_map_id (nodes : List CGraphNode) (ch : PosChange) :
    (setNodePosition nodes ch).map (fun n => n.id) =
      nodes.map (fun n => n.id) := by
  induction nodes with
  | nil => rfl
  | cons n rest ih =>
    simp only [setNodePosition]
    split
    · simp
    · simp [ih]

/-- Folding a batch of node position changes never changes the id
sequence. -/
theorem foldl_setNodePosition_map_id (cs : List PosChange)
    (nodes : List CGraphNode) :
    ((cs.foldl setNodePosition nodes).map (fun n => n.id)) =
      nodes.map (fun n => n.id) := by
  induction cs generalizing nodes with
  | nil => rfl
  | cons c cs ih =>
    simp only [List.foldl_cons]
    rw [ih, setNodePosition_map_id]

/-- A node position change whose id matches no node is dropped entirely. -/
theorem setNodePosition_of_unknown (nodes : List CGraphNode) (ch : PosChange)
    (h : ∀ n ∈ nodes, n.id ≠ ch.id) : setNodePosition nodes ch = nodes := by
  induction nodes with
  | nil => rfl
  | cons n rest ih =>
    have hn : (n.id == ch.id) = false := by
      simp [h n (List.mem_cons_self n rest)]
    simp only [setNodePosition, hn, Bool.false_eq_true, if_false,
      List.cons.injEq, true_and]
    exact ih (fun m hm => h m (List.mem_cons_of_mem n hm))

/-- Applying a group position change never changes the id sequence. -/
theorem setGroupPosition_map_id (groups : List CGraphGroup) (ch : PosChange) :
    (setGroupPosition groups ch).map (fun g => g.id) =
      groups.map (fun g => g.id) := by
  induction groups with
  | nil => rfl
  | cons g rest ih =>
    simp only [setGroupPosition]
    split
    · simp
    · simp [ih]

/-- Folding a batch of group position changes never changes the id
sequence. -/
theorem foldl_setGroupPosition_map_id (cs : List PosChange)
    (groups : List CGraphGroup) :
    ((cs.foldl setGroupPosition groups).map (fun g => g.id)) =
      groups.map (fun g => g.id) := by
  induction cs generalizing groups with
  | nil => rfl
  | cons c cs ih =>
    simp only [List.foldl_cons]
    rw [ih, setGroupPosition_map_id]

/-- A group position change whose id matches no group is dropped
entirely. -/
theorem setGroupPosition_of_unknown (groups : List CGraphGroup)
    (ch : PosChange) (h : ∀ g ∈ groups, g.id ≠ ch.id) :
    setGroupPosition groups ch = groups := by
  induction groups with
  | nil => rfl
  | cons g rest ih =>
    have hg : (g.id == ch.id) = false := by
      simp [h g (List.mem_cons_self g rest)]
    simp only [setGroupPosition, hg, Bool.false_eq_true, if_false,
      List.cons.injEq, true_and]
    exact ih (fun m hm => h m (List.mem_cons_of_mem g hm))

/-- The first node matching the id of a change receives exactly the changed
position, and the search image of the rewritten list is the search image of
the original list with only the position field rewritten. -/
theorem setNodePosition_find? (nodes : List CGraphNode) (ch : PosChange) :
    (setNodePosition nodes ch).find? (fun n => n.id == ch.id) =
      (nodes.find? (fun n => n.id == ch.id)).map
        (fun n => { n with position := some ch.position }) := by
  induction nodes with
  | nil => rfl
  | cons n rest ih =>
    cases h : (n.id == ch.id) with
    | true =>
      simp only [setNodePosition, h, if_true]
      rw [List.find?_cons_of_pos, List.find?_cons_of_pos] <;> simp [h]
    | false =>
      simp only [setNodePosition, h, Bool.false_eq_true, if_false]
      rw [List.find?_cons_of_neg, List.find?_cons_of_neg] <;> simp [h, ih]

/-! ## Claim theorems about the authority -/

/-- C1 (defect evidence): the layout compiler output never consults stored
positions. The solver request carries only ids and box dimensions, the
compiled output is unchanged when every stored position is erased from the
document, and at the concrete failing input a node carrying stored position
(7, 9) that the solver places at the origin is compiled to the origin
instead of its stored position. -/
theorem layout_ignores_stored_position :
    (∀ (g : CGraph) (sp : List (String × Position)),
      compiledNodePositions (eraseStoredPositions g) sp =
          compiledNodePositions g sp ∧
        elkRequestLeaves (eraseStoredPositions g) = elkRequestLeaves g) ∧
    (compiledNodePositions
        ⟨"1",
          [⟨"n1", "A", NodeType.function, none, ⟨"a.ts", 1, none⟩, none,
            some ⟨7, 9⟩⟩],
          [], none, none⟩
        [("n1", ⟨0, 0⟩)] = [("n1", ⟨0, 0⟩)] ∧
      (⟨0, 0⟩ : Position) ≠ ⟨7, 9⟩) := by
  refine ⟨fun g sp => ⟨?_, ?_⟩, by decide, by decide⟩
  · simp [compiledNodePositions, eraseStoredPositions, List.map_map,
      Function.comp]
  · simp [elkRequestLeaves, eraseStoredPositions, List.map_map,
      Function.comp]

/-- C3 counterexample: the authority persists the batch coordinates
10.6 and 20.4 for node n1 unchanged; they are not rounded to 11 and 20. -/
theorem applyPositionChanges_does_not_round :
    (applyPositionChanges
        ⟨"1",
          [⟨"n1", "A", NodeType.function, none, ⟨"a.ts", 1, none⟩, none,
            none⟩],
          [], none, none⟩
        ⟨some [⟨"n1", ⟨10.6, 20.4⟩⟩], none, none⟩).nodes.map
        (fun n => n.position) = [some ⟨10.6, 20.4⟩] ∧
      (some (⟨10.6, 20.4⟩ : Position) : Option Position) ≠
        some ⟨11, 20⟩ := by
  constructor
  · rfl
  · simp only [ne_eq, Option.some.injEq, Position.mk.injEq, not_and]
    intro hx
    norm_num at hx

/-- C3 as the code has it: the authority persists exactly the coordinates it
receives. The first node matching the changed id ends with precisely the
batch position, every other part of the search image is untouched, and the
groups collection is untouched by a node position batch. -/
theorem applyPositionChanges_persists_exact (g : CGraph) (ch : PosChange) :
    ((applyPositionChanges g ⟨some [ch], none, none⟩).nodes.find?
        (fun n => n.id == ch.id)) =
      (g.nodes.find? (fun n => n.id == ch.id)).map
        (fun n => { n with position := some ch.position }) ∧
    (applyPositionChanges g ⟨some [ch], none, none⟩).groups = g.groups := by
  constructor
  · show (setNodePosition g.nodes ch).find? (fun n => n.id == ch.id) = _
    exact setNodePosition_find? g.nodes ch
  · cases hg : g.groups <;> simp [applyPositionChanges, hg]

/-- C10: a change whose id matches no node (or, for group position changes,
no group) is silently dropped, the remaining changes of the batch are still
applied, no error notice is raised, and the batch still commits exactly one
whole-document replace. -/
theorem applyPositionChanges_skips_unknown (g : CGraph)
    (pre post gpre gpost : List PosChange) (u gu : PosChange)
    (uris : List String) (uri : String) :
    ((∀ n ∈ g.nodes, n.id ≠ u.id) →
      applyPositionChanges g ⟨some (pre ++ u :: post), none, none⟩ =
        applyPositionChanges g ⟨some (pre ++ post), none, none⟩) ∧
    (∀ gs, g.groups = some gs → (∀ gr ∈ gs, gr.id ≠ gu.id) →
      applyPositionChanges g ⟨none, some (gpre ++ gu :: gpost), none⟩ =
        applyPositionChanges g ⟨none, some (gpre ++ gpost), none⟩) ∧
    ((applyPositionChangesRun uris uri g ⟨some (pre ++ u :: post), none,
        none⟩ true).edits = 1 ∧
      (applyPositionChangesRun uris uri g ⟨some (pre ++ u :: post), none,
        none⟩ true).notices = []) := by
  refine ⟨fun hu => ?_, fun gs hgs hgu => ?_, rfl, rfl⟩
  · have hmid : ∀ n ∈ pre.foldl setNodePosition g.nodes, n.id ≠ u.id := by
      intro n hn
      have hidmem : n.id ∈ (pre.foldl setNodePosition g.nodes).map
          (fun n => n.id) := List.mem_map_of_mem _ hn
      rw [foldl_setNodePosition_map_id] at hidmem
      obtain ⟨m, hm, hmid⟩ := List.mem_map.mp hidmem
      exact hmid ▸ hu m hm
    have hnodes :
        (pre ++ u :: post).foldl setNodePosition g.nodes =
          (pre ++ post).foldl setNodePosition g.nodes := by
      rw [List.foldl_append, List.foldl_append, List.foldl_cons,
        setNodePosition_of_unknown _ _ hmid]
    simp [applyPositionChanges, hnodes]
  · have hmid : ∀ gr ∈ gpre.foldl setGroupPosition gs, gr.id ≠ gu.id := by
      intro gr hgr
      have hidmem : gr.id ∈ (gpre.foldl setGroupPosition gs).map
          (fun gr => gr.id) := List.mem_map_of_mem _ hgr
      rw [foldl_setGroupPosition_map_id] at hidmem
      obtain ⟨m, hm, hmid⟩ := List.mem_map.mp hidmem
      exact hmid ▸ hgu m hm
    have hgroups :
        (gpre ++ gu :: gpost).foldl setGroupPosition gs =
          (gpre ++ gpost).foldl setGroupPosition gs := by
      rw [List.foldl_append, List.foldl_append, List.foldl_cons,
        setGroupPosition_of_unknown _ _ hmid]
    simp [applyPositionChanges, hgs, hgroups]

/-- Witness for C10 at a concrete input: a batch holding the unknown node id
zz and the known node id a updates a, drops zz without any notice, and
commits one edit. -/
theorem applyPositionChanges_skips_unknown_witness :
    applyPositionChanges
        ⟨"1",
          [⟨"a", "A", NodeType.function, none, ⟨"a.ts", 1, none⟩, none,
            none⟩],
          [], some [], none⟩
        ⟨some [⟨"zz", ⟨1, 1⟩⟩, ⟨"a", ⟨2, 3⟩⟩], none, none⟩ =
      applyPositionChanges
        ⟨"1",
          [⟨"a", "A", NodeType.function, none, ⟨"a.ts", 1, none⟩, none,
            none⟩],
          [], some [], none⟩
        ⟨some [⟨"a", ⟨2, 3⟩⟩], none, none⟩ ∧
    (applyPositionChangesRun [] "u"
        ⟨"1",
          [⟨"a", "A", NodeType.function, none, ⟨"a.ts", 1, none⟩, none,
            none⟩],
          [], some [], none⟩
        ⟨some [⟨"zz", ⟨1, 1⟩⟩, ⟨"a", ⟨2, 3⟩⟩], none, none⟩ true).edits = 1 := by
  have h := applyPositionChanges_skips_unknown
    ⟨"1",
      [⟨"a", "A", NodeType.function, none, ⟨"a.ts", 1, none⟩, none, none⟩],
      [], some [], none⟩
    [] [⟨"a", ⟨2, 3⟩⟩] [] [] ⟨"zz", ⟨1, 1⟩⟩ ⟨"zz", ⟨1, 1⟩⟩ [] "u"
  exact ⟨h.1 (by decide), h.2.2.1⟩

/-- C7: resetLayout erases the stored position of every node and the stored
position and size of every group while leaving every other field of every
node, edge and group unchanged (the record updates touch nothing else), and
the operation commits exactly one whole-document replace carrying that
content. -/
theorem clearManualPositions_frame (g : CGraph) (uris : List String)
    (uri : String) :
    (clearManualPositions g).nodes =
        g.nodes.map (fun n => { n with position := none }) ∧
      (clearManualPositions g).groups =
        g.groups.map (fun gs => gs.map
          (fun gr => { gr with position := none, size := none })) ∧
      (clearManualPositions g).edges = g.edges ∧
      (clearManualPositions g).version = g.version ∧
      (clearManualPositions g).direction = g.direction ∧
      (clearManualPositionsRun uris uri g true).doc = clearManualPositions g ∧
      (clearManualPositionsRun uris uri g true).edits = 1 :=
  ⟨rfl, rfl, rfl, rfl, rfl, rfl, rfl⟩

/-- C8 counterexample: a stored snapshot that is the empty string is a
snapshot different from the content x, yet the code takes the missing
snapshot branch, leaves the document unchanged, commits no edit and shows
the no-saved-state notice instead of replacing the content. -/
theorem revertToSaved_empty_snapshot_counterexample :
    (some "" : Option String) ≠ none ∧ ("x" : String) ≠ "" ∧
      (revertToSavedRun [] "u" "x" (some "") true).doc = "x" ∧
      (revertToSavedRun [] "u" "x" (some "") true).edits = 0 ∧
      (revertToSavedRun [] "u" "x" (some "") true).notices =
        ["No saved state to revert to"] :=
  ⟨by decide, by decide, rfl, rfl, rfl⟩

/-- C8 as the code has it: with no snapshot, or with an empty snapshot, the
document is unchanged, a notice is emitted and no edit is committed; with a
snapshot equal to the content the same holds with the no-changes notice;
with a nonempty snapshot different from the content the snapshot is
installed by one replace edit and no notice is shown. -/
theorem revertToSaved_cases (uris : List String) (uri content s : String) :
    revertToSavedRun uris uri content none true =
        ⟨uris, uris, content, 0, ["No saved state to revert to"]⟩ ∧
      revertToSavedRun uris uri content (some "") true =
        ⟨uris, uris, content, 0, ["No saved state to revert to"]⟩ ∧
      (s ≠ "" → content = s →
        revertToSavedRun uris uri content (some s) true =
          ⟨uris, uris, content, 0, ["No changes to revert"]⟩) ∧
      (s ≠ "" → content ≠ s →
        (revertToSavedRun uris uri content (some s) true).doc = s ∧
          (revertToSavedRun uris uri content (some s) true).edits = 1 ∧
          (revertToSavedRun uris uri content (some s) true).notices = []) := by
  refine ⟨rfl, by simp [revertToSavedRun], fun h1 h2 => ?_, fun h1 h2 => ?_⟩
  · simp [revertToSavedRun, h1, h2]
  · refine ⟨?_, ?_, ?_⟩ <;> simp [revertToSavedRun, h1, h2]

/-- Witness for C8 at a concrete input: content x with nonempty snapshot y
is replaced by y in one edit. -/
theorem revertToSaved_cases_witness :
    (revertToSavedRun [] "u" "x" (some "y") true).doc = "y" ∧
      (revertToSavedRun [] "u" "x" (some "y") true).edits = 1 := by
  have h := (revertToSaved_cases [] "u" "x" "y").2.2.2 (by decide) (by decide)
  exact ⟨h.1, h.2.1⟩

/-- The uri under edit is always in the guard set right after acquiring. -/
theorem mem_guardAdd (uris : List String) (uri : String) :
    uri ∈ guardAdd uris uri := by
  unfold guardAdd
  split
  · assumption
  · exact List.mem_cons_self uri uris

/-- The scheduled release removes the uri from the guard set. -/
theorem not_mem_guardDelete (uris : List String) (uri : String) :
    uri ∉ guardDelete uris uri := by
  simp [guardDelete, List.mem_filter]

/-- While a uri is marked self-editing no update push goes out for it. -/
theorem changeEventPushes_suppressed (uris : List String) (uri : String)
    (g : CGraph) (h : uri ∈ uris) :
    changeEventPushes uris uri uri g = [] := by
  simp [changeEventPushes, h]

/-- C6: during each of the three programmatic edits the uri is in the guard
set so the change-event push for that document is suppressed, and on every
exit path, both when the body succeeds (ok true) and when it throws and is
caught (ok false), the finally-scheduled release leaves the uri out of the
guard set, so the suppression window always closes. -/
theorem self_editing_guard (uris : List String) (uri : String) (g : CGraph)
    (chs : PositionChanges) (ok : Bool) (content s : String)
    (hs : s ≠ "") (hne : content ≠ s) :
    (uri ∈ (applyPositionChangesRun uris uri g chs ok).during ∧
      changeEventPushes (applyPositionChangesRun uris uri g chs ok).during
        uri uri g = [] ∧
      uri ∉ (applyPositionChangesRun uris uri g chs ok).final) ∧
    (uri ∈ (clearManualPositionsRun uris uri g ok).during ∧
      changeEventPushes (clearManualPositionsRun uris uri g ok).during
        uri uri g = [] ∧
      uri ∉ (clearManualPositionsRun uris uri g ok).final) ∧
    (uri ∈ (revertToSavedRun uris uri content (some s) ok).during ∧
      changeEventPushes (revertToSavedRun uris uri content (some s) ok).during
        uri uri g = [] ∧
      uri ∉ (revertToSavedRun uris uri content (some s) ok).final) := by
  have hrevDuring :
      (revertToSavedRun uris uri content (some s) ok).during =
        guardAdd uris uri := by
    simp [revertToSavedRun, hs, hne]
  have hrevFinal :
      (revertToSavedRun uris uri content (some s) ok).final =
        guardDelete (guardAdd uris uri) uri := by
    simp [revertToSavedRun, hs, hne]
  refine ⟨⟨mem_guardAdd uris uri, ?_, not_mem_guardDelete _ uri⟩,
    ⟨mem_guardAdd uris uri, ?_, not_mem_guardDelete _ uri⟩,
    ⟨?_, ?_, ?_⟩⟩
  · exact changeEventPushes_suppressed _ uri g (mem_guardAdd uris uri)
  · exact changeEventPushes_suppressed _ uri g (mem_guardAdd uris uri)
  · rw [hrevDuring]; exact mem_guardAdd uris uri
  · rw [hrevDuring]
    exact changeEventPushes_suppressed _ uri g (mem_guardAdd uris uri)
  · rw [hrevFinal]; exact not_mem_guardDelete _ uri

/-- Witness for C6 at a concrete input, on the throwing paths: after a
failed position batch and a failed revert the guard no longer holds the
uri. -/
theorem self_editing_guard_witness :
    "u" ∉ (applyPositionChangesRun [] "u" ⟨"1", [], [], none, none⟩
        ⟨none, none, none⟩ false).final ∧
      "u" ∉ (revertToSavedRun [] "u" "x" (some "y") false).final := by
  have h := self_editing_guard [] "u" ⟨"1", [], [], none, none⟩
    ⟨none, none, none⟩ false "x" "y" (by decide) (by decide)
  exact ⟨h.1.2.2, h.2.2.2.2⟩

/-- Folding intents for one id over a singleton buffer for that id keeps a
single entry holding the most recent value. -/
theorem foldl_updateNodeBuffer_same (ps : List Position) (nodeId : String)
    (q : Position) :
    ps.foldl (fun b p => updateNodeBuffer b nodeId p) [⟨nodeId, q⟩] =
      [⟨nodeId, ps.getLastD q⟩] := by
  induction ps generalizing q with
  | nil => rfl
  | cons p rest ih =>
    simp only [List.foldl_cons]
    have hstep : updateNodeBuffer [⟨nodeId, q⟩] nodeId p = [⟨nodeId, p⟩] := by
      simp [updateNodeBuffer]
    rw [hstep, ih, List.getLastD_cons]

/-- Session steps over same-id intents keep one buffered entry with the
most recent value, an armed timer, and no outbound traffic. -/
theorem foldl_sessionStep_intents (ps : List Position) (nodeId : String)
    (q : Position) (sent : List (List PosChange)) :
    (ps.map (SessionEvent.intent nodeId)).foldl sessionStep
        ⟨[⟨nodeId, q⟩], true, sent⟩ =
      ⟨[⟨nodeId, ps.getLastD q⟩], true, sent⟩ := by
  induction ps generalizing q with
  | nil => rfl
  | cons p rest ih =>
    simp only [List.map_cons, List.foldl_cons]
    have hstep :
        sessionStep ⟨[⟨nodeId, q⟩], true, sent⟩
            (SessionEvent.intent nodeId p) =
          ⟨[⟨nodeId, p⟩], true, sent⟩ := by
      simp [sessionStep, updateNodeBuffer]
    rw [hstep, ih, List.getLastD_cons]

/-- C5: a nonempty run of position change intents for one id, all inside
the debounce window, leaves the pending buffer with exactly one entry for
that id holding the last value and nothing sent; the single debounce expiry
then posts exactly one updatePositions batch carrying only that final value
and clears the buffer. -/
theorem debounce_single_batch (nodeId : String) (ps : List Position)
    (h : ps ≠ []) :
    (sessionRun (ps.map (SessionEvent.intent nodeId))).buffer =
        [⟨nodeId, ps.getLast h⟩] ∧
      (sessionRun (ps.map (SessionEvent.intent nodeId))).sent = [] ∧
      (sessionStep (sessionRun (ps.map (SessionEvent.intent nodeId)))
          SessionEvent.fire).sent = [[⟨nodeId, ps.getLast h⟩]] ∧
      (sessionStep (sessionRun (ps.map (SessionEvent.intent nodeId)))
          SessionEvent.fire).buffer = [] := by
  cases ps with
  | nil => exact absurd rfl h
  | cons p rest =>
    have hrun : sessionRun ((p :: rest).map (SessionEvent.intent nodeId)) =
        ⟨[⟨nodeId, rest.getLastD p⟩], true, []⟩ := by
      simp only [List.map_cons, sessionRun, List.foldl_cons]
      have hstep : sessionStep ⟨[], false, []⟩
          (SessionEvent.intent nodeId p) = ⟨[⟨nodeId, p⟩], true, []⟩ := by
        simp [sessionStep, updateNodeBuffer]
      rw [hstep]
      exact foldl_sessionStep_intents rest nodeId p []
    have hlast : (p :: rest).getLast h = rest.getLastD p := by
      rw [List.getLast_eq_getLastD]
    rw [hrun, hlast]
    refine ⟨rfl, rfl, ?_, ?_⟩ <;> simp [sessionStep]

/-- Witness for C5 at a concrete input: two drag intents for n1 inside one
debounce window send exactly one batch holding only the second position. -/
theorem debounce_single_batch_witness :
    (sessionStep (sessionRun ([⟨1, 2⟩, ⟨3, 4⟩].map
        (SessionEvent.intent "n1"))) SessionEvent.fire).sent =
      [[⟨"n1", ⟨3, 4⟩⟩]] := by
  have h := debounce_single_batch "n1" [⟨1, 2⟩, ⟨3, 4⟩] (by decide)
  simpa using h.2.2.1

/-- C4 counterexample: with an active selection the dimming pass returns the
group container unchanged, so the group is not rendered dimmed. -/
theorem group_dimming_counterexample :
    applyNodeDimming (some "n1") ["n1"] [⟨"group-g", true, none⟩] =
        [⟨"group-g", true, none⟩] ∧
      (⟨"group-g", true, none⟩ : RFNode).dimmed ≠ some true :=
  ⟨rfl, by decide⟩

/-- C4 as the code has it: the dimming passes leave group containers
untouched whether or not a selection is active; with no selection every
code node is undimmed and every edge has opacity 1; with a selection every
code node outside the connected set is dimmed, every connected code node is
not, and every edge outside the highlighted set has opacity 0.15 while
highlighted edges keep opacity 1. -/
theorem selection_dimming_spec (selected : Option String)
    (connected connectedEdges : List String) (nodes : List RFNode) :
    (∀ n ∈ applyNodeDimming selected connected nodes,
      (n.isGroup = true → n ∈ nodes) ∧
        (n.isGroup = false → selected = none → n.dimmed = some false) ∧
        (n.isGroup = false → ∀ sel, selected = some sel →
          n.dimmed = some (!(connected.contains n.id)))) ∧
      (selected = none → ∀ e : CGraphEdge,
        edgeOpacity selected connectedEdges e = 1) ∧
      (∀ sel, selected = some sel → ∀ e : CGraphEdge,
        edgeOpacity selected connectedEdges e =
          if connectedEdges.contains e.id then 1 else 15 / 100) := by
  refine ⟨?_, ?_, ?_⟩
  · intro n hn
    simp only [applyNodeDimming, List.mem_map] at hn
    obtain ⟨m, hm, hEq⟩ := hn
    cases hgr : m.isGroup with
    | true =>
      rw [hgr] at hEq
      simp only [if_true] at hEq
      subst hEq
      refine ⟨fun _ => hm, fun hfalse _ => ?_, fun hfalse _ _ => ?_⟩
      · rw [hgr] at hfalse
        exact Bool.noConfusion hfalse
      · rw [hgr] at hfalse
        exact Bool.noConfusion hfalse
    | false =>
      rw [hgr] at hEq
      simp only [Bool.false_eq_true, if_false] at hEq
      cases hsel : selected with
      | none =>
        rw [hsel] at hEq
        subst hEq
        refine ⟨fun htrue => ?_, fun _ _ => rfl, fun _ sel hcontra => ?_⟩
        · simp [hgr] at htrue
        · exact Option.noConfusion hcontra
      | some sel =>
        rw [hsel] at hEq
        subst hEq
        refine ⟨fun htrue => ?_, fun _ hcontra => ?_,
          fun _ sel2 hEq2 => ?_⟩
        · simp [hgr] at htrue
        · exact Option.noConfusion hcontra
        · cases hEq2
          rfl
  · intro hsel e
    rw [hsel]
    rfl
  · intro sel hsel e
    rw [hsel]
    rfl

/-- Witness for C4 at concrete inputs: a non-highlighted edge under an
active selection has opacity 0.15 and the same edge with no selection has
opacity 1. -/
theorem selection_dimming_spec_witness :
    edgeOpacity (some "n1") ["e2"]
        ⟨"e1", "n1", "n2", EdgeType.calls, none, none, none⟩ = 15 / 100 ∧
      edgeOpacity none ["e2"]
        ⟨"e1", "n1", "n2", EdgeType.calls, none, none, none⟩ = 1 := by
  constructor
  · have h := (selection_dimming_spec (some "n1") [] ["e2"] []).2.2 "n1" rfl
      ⟨"e1", "n1", "n2", EdgeType.calls, none, none, none⟩
    simpa using h
  · have h := (selection_dimming_spec none [] ["e2"] []).2.1 rfl
      ⟨"e1", "n1", "n2", EdgeType.calls, none, none, none⟩
    simpa using h

end Codetographer
